import Mathlib

/-!
Verification of the NFSePainel core against its specification.

The Python sources are shallowly embedded:
- Python `str` values are `String` / `List Char` (Python's `str.lower` is modelled
  for the ASCII and Latin-1 letter ranges, which covers every string the sources
  compare after lowering);
- Python `decimal.Decimal` is `Dec`, a mantissa/scale pair (exactly Python's
  internal representation of a finite decimal; exponent-form, `NaN` and
  `Infinity` literals are outside the model — the sources never produce them
  from the BRL formats they parse);
- rows (Python dicts) are structures with `Option String` fields where a key can
  be absent, plus an opaque remainder list standing for the untouched keys;
- in-place mutation is explicit state passing: each mutating service returns the
  final list of rows next to its Python return value, and a raised exception is
  an `Except.error` carrying the Python exception type and message.
-/

namespace NFSePainel

/-! ## Python character and string primitives -/

/-- Whitespace stripped by Python `str.strip()` (ASCII portion). -/
def pyIsSpace (c : Char) : Bool :=
  c = ' ' || c = '\t' || c = '\n' || c = '\x0d' || c = '\x0b' || c = '\x0c'

/-- Python `str.strip()` on the character list of a string. -/
def pyStrip (l : List Char) : List Char :=
  ((l.dropWhile pyIsSpace).reverse.dropWhile pyIsSpace).reverse

/-- Python `str.lower()` on one character: ASCII `A-Z` plus the Latin-1
uppercase letters `À-Þ` (so that `"NÃO".lower() = "não"` is modelled). -/
def pyLowerChar (c : Char) : Char :=
  if ('A' ≤ c ∧ c ≤ 'Z') ∨ ('À' ≤ c ∧ c ≤ 'Þ' ∧ c ≠ '×') then Char.ofNat (c.toNat + 32)
  else c

/-- Python `str.lower()` on a character list. -/
def pyLower (l : List Char) : List Char := l.map pyLowerChar

/-- Python `str.lower()` on a string. -/
def pyLowerStr (s : String) : String := String.mk (pyLower s.data)

/-- Python `str.strip()` on a string. -/
def pyStripStr (s : String) : String := String.mk (pyStrip s.data)

/-- Python truthiness-based `x or d` for an optional string (`None` and `""`
are falsy, every other string is kept). -/
def pyOr (x : Option String) (d : String) : String :=
  match x with
  | none => d
  | some v => if v = "" then d else v

/-- Python `dict.get(k, d)`: the default applies only when the key is absent. -/
def pyGetD (x : Option String) (d : String) : String := x.getD d

/-- Lexicographic code-point comparison of character lists: Python `<=` on
strings. -/
def lexLe : List Char → List Char → Bool
  | [], _ => true
  | _ :: _, [] => false
  | a :: as', b :: bs' =>
    if a.toNat < b.toNat then true
    else if b.toNat < a.toNat then false
    else lexLe as' bs'

/-! ## Decimal digits -/

/-- Value of an ASCII digit character. -/
def digitVal (c : Char) : Nat := c.toNat - 48

/-- ASCII digit test (`0`-`9`), as accepted by `Decimal` literals. -/
def isDigitCh (c : Char) : Bool := 48 ≤ c.toNat && c.toNat ≤ 57

/-- The ASCII digit character of `n % 10`. -/
def digitCh (n : Nat) : Char := Char.ofNat (48 + n % 10)

/-- Fuel-driven rendering of the decimal digits of `n`, most significant first,
prepended to `acc` (fuel-based so that the kernel can evaluate it; `natDigits`
always supplies enough fuel). -/
def natDigitsAux : Nat → Nat → List Char → List Char
  | 0, _, acc => acc
  | fuel + 1, n, acc =>
    if n = 0 then acc else natDigitsAux fuel (n / 10) (digitCh (n % 10) :: acc)

/-- Decimal digit string of a natural number, as Python renders integers. -/
def natDigits (n : Nat) : List Char := if n = 0 then ['0'] else natDigitsAux n n []

/-- Numeric value of a digit string (most significant first). -/
def ofDigitsNat (l : List Char) : Nat := l.foldl (fun a c => 10 * a + digitVal c) 0

/-! ## Python `decimal.Decimal` (finite values): mantissa and scale -/

/-- A finite Python `Decimal`: the value `num / 10 ^ scale`. `Decimal` keeps
the scale (so `Decimal("1.50")` is `⟨150, 2⟩`), and compares numerically. -/
structure Dec where
  num : Int
  scale : Nat
deriving DecidableEq, Repr

/-- Numeric equality of two `Dec` values (Python `==` on `Decimal`). -/
def Dec.equiv (a b : Dec) : Prop := a.num * 10 ^ b.scale = b.num * 10 ^ a.scale

instance (a b : Dec) : Decidable (Dec.equiv a b) := by
  unfold Dec.equiv; infer_instance

/-- Numeric `<=` on `Dec` (Python `<=` on `Decimal`). -/
def Dec.leB (a b : Dec) : Bool := a.num * 10 ^ b.scale ≤ b.num * 10 ^ a.scale

/-- Numeric `<` on `Dec` (Python `<` on `Decimal`). -/
def Dec.ltB (a b : Dec) : Bool := a.num * 10 ^ b.scale < b.num * 10 ^ a.scale

/-- Numeric `==` on `Dec` as a `Bool`. -/
def Dec.eqB (a b : Dec) : Bool := a.num * 10 ^ b.scale = b.num * 10 ^ a.scale

/-- Split a character list at its first `.`, keeping what follows. -/
def splitDotCh : List Char → List Char × Option (List Char)
  | [] => ([], none)
  | c :: rest =>
    if c = '.' then ([], some rest)
    else
      let p := splitDotCh rest
      (c :: p.1, p.2)

/-- Parse an unsigned `Decimal` literal `digits[.digits]` / `.digits` (the
finite, exponent-free part of Python's `Decimal` grammar). -/
def parseUnsignedDec (l : List Char) : Option Dec :=
  match splitDotCh l with
  | (ip, none) =>
    if ip.all isDigitCh ∧ ip ≠ [] then some ⟨(ofDigitsNat ip : Int), 0⟩ else none
  | (ip, some fp) =>
    if (ip ++ fp).all isDigitCh ∧ ip ++ fp ≠ [] then
      some ⟨(ofDigitsNat (ip ++ fp) : Int), fp.length⟩
    else none

/-- Parse a signed `Decimal` literal: `Decimal(t)`, `None` meaning
`InvalidOperation`. -/
def parseDecLit (l : List Char) : Option Dec :=
  match l with
  | '-' :: rest => (parseUnsignedDec rest).map (fun d => ⟨-d.num, d.scale⟩)
  | '+' :: rest => parseUnsignedDec rest
  | _ => parseUnsignedDec l

/-- The dual-convention BRL munging shared by `parcelas._to_decimal_brl`,
`dominio_export._to_decimal` and `dominio_nfse._to_decimal`: with both `,` and
`.` present, dots are thousands separators and the comma is the decimal point;
otherwise the single separator is the decimal point. -/
def brlMunge (l : List Char) : List Char :=
  if ',' ∈ l ∧ '.' ∈ l then
    (l.filter (fun c => c ≠ '.')).map (fun c => if c = ',' then '.' else c)
  else l.map (fun c => if c = ',' then '.' else c)

/-- Shared core of the three `_to_decimal` helpers: strip, munge, `Decimal(t)`,
and `0` on empty input or `InvalidOperation`. -/
def toDecimalCore (l : List Char) : Dec :=
  let t := pyStrip l
  if t = [] then ⟨0, 0⟩
  else
    match parseDecLit (brlMunge t) with
    | some d => d
    | none => ⟨0, 0⟩

/-- Round `a / d` (with `d > 0`) to the nearest integer, ties to even:
`decimal.ROUND_HALF_EVEN`, the default context rounding used by
`parcelas._fmt_brl`. -/
def roundHalfEvenInt (a d : Int) : Int :=
  let q := Int.ediv a d
  let r := Int.emod a d
  if 2 * r < d then q else if d < 2 * r then q + 1 else if q % 2 = 0 then q else q + 1

/-- Round `a / d` (with `d > 0`) to the nearest integer, ties away from zero:
`decimal.ROUND_HALF_UP`, used by the `dominio_*` formatters. -/
def roundHalfUpInt (a d : Int) : Int :=
  let q := Int.ediv a d
  let r := Int.emod a d
  if 2 * r < d then q else if d < 2 * r then q + 1 else if 0 ≤ a then q + 1 else q

/-- Cents of `d.quantize(Decimal("0.01"), ROUND_HALF_EVEN)`. -/
def quantHE (d : Dec) : Int := roundHalfEvenInt (d.num * 100) (10 ^ d.scale)

/-- Cents of `d.quantize(Decimal("0.01"), ROUND_HALF_UP)`. -/
def quantHU (d : Dec) : Int := roundHalfUpInt (d.num * 100) (10 ^ d.scale)

/-- Three-digit grouping of a reversed digit string: Python's `f"{n:,}"` seen
from the least significant end. -/
def groupRevAux : List Char → List Char
  | a :: b :: c :: d :: rest => a :: b :: c :: ',' :: groupRevAux (d :: rest)
  | l => l

/-- Python `f"{n:,}".replace(",", ".")` applied to a digit string (most
significant first): thousands groups separated by dots. -/
def groupDots (ds : List Char) : List Char :=
  ((groupRevAux ds.reverse).reverse).map (fun c => if c = ',' then '.' else c)

/-- Two fraction digits of a cent amount `fr < 100`, as `f"{v:.2f}"` renders
them. -/
def pad2 (fr : Nat) : List Char := [digitCh (fr / 10), digitCh fr]

/-- Shared body of the three `_fmt_brl` formatters, applied to a cent amount:
split `f"{v:.2f}"` at the dot, group the integer part (`int(...)` drops a bare
`-0`), and join with a decimal comma. -/
def fmtCents (n : Int) : String :=
  let ip := Int.tdiv n 100
  let fr := n.natAbs % 100
  let sign : List Char := if ip < 0 then ['-'] else []
  String.mk (sign ++ groupDots (natDigits ip.natAbs) ++ ',' :: pad2 fr)

/-- Python `f"{n:0kd}"`: decimal digits left-padded with zeros to width `k`. -/
def padZero (k : Nat) (n : Nat) : List Char :=
  List.replicate (k - (natDigits n).length) '0' ++ natDigits n

/-- Python `int(s)` on a string slice: optional surrounding spaces, optional
sign, one or more ASCII digits (digit-grouping underscores are not modelled;
the sources only slice two- and four-character date fields). -/
def pyInt (l : List Char) : Option Int :=
  let t := pyStrip l
  match t with
  | '-' :: rest =>
    if rest.all isDigitCh ∧ rest ≠ [] then some (-(ofDigitsNat rest : Int)) else none
  | '+' :: rest =>
    if rest.all isDigitCh ∧ rest ≠ [] then some (ofDigitsNat rest : Int) else none
  | _ => if t.all isDigitCh ∧ t ≠ [] then some (ofDigitsNat t : Int) else none

namespace Parcelas

/-- A Python `datetime.date`: proleptic Gregorian year, month, day. -/
structure PyDate where
  year : Nat
  month : Nat
  day : Nat
deriving DecidableEq, Repr

/-- Leap-year rule of the Gregorian calendar (`calendar.isleap`). -/
def isLeap (y : Nat) : Bool := y % 4 = 0 && (y % 100 ≠ 0 || y % 400 = 0)

/-- Days in month `m` of year `y`. -/
def daysInMonth (y m : Nat) : Nat :=
  if m = 2 then (if isLeap y then 29 else 28)
  else if m = 4 ∨ m = 6 ∨ m = 9 ∨ m = 11 then 30
  else 31

/-- Validity of a `date(y, m, d)` construction (`ValueError` otherwise). -/
def validDate (y m d : Int) : Bool :=
  1 ≤ y && y ≤ 9999 && 1 ≤ m && m ≤ 12 && 1 ≤ d && d ≤ (daysInMonth y.toNat m.toNat : Int)

/-- Python `date(y, m, d)`: `none` models the raised `ValueError`. -/
def mkPyDate (y m d : Int) : Option PyDate :=
  if validDate y m d then some ⟨y.toNat, m.toNat, d.toNat⟩ else none

/-- The previous calendar day: Python `d - timedelta(days=1)`. -/
def predDay (d : PyDate) : PyDate :=
  if 2 ≤ d.day then ⟨d.year, d.month, d.day - 1⟩
  else if 2 ≤ d.month then ⟨d.year, d.month - 1, daysInMonth d.year (d.month - 1)⟩
  else ⟨d.year - 1, 12, 31⟩

/-- The next calendar day: one step of Python `d + timedelta(days=n)`. -/
def succDay (d : PyDate) : PyDate :=
  if d.day < daysInMonth d.year d.month then ⟨d.year, d.month, d.day + 1⟩
  else if d.month < 12 then ⟨d.year, d.month + 1, 1⟩
  else ⟨d.year + 1, 1, 1⟩

/-- Source `_last_day_of_month`: `(d.replace(day=1) + timedelta(days=32)).replace(day=1) - timedelta(days=1)`. -/
def _last_day_of_month (d : PyDate) : PyDate :=
  let first_next := succDay^[32] ⟨d.year, d.month, 1⟩
  predDay ⟨first_next.year, first_next.month, 1⟩

/-- Source `calcular_vencimento_padrao`: the last day of the month before the
month of `today` (the Python default argument `date.today()` is the caller's
system date, passed here explicitly). -/
def calcular_vencimento_padrao (today : PyDate) : PyDate :=
  predDay ⟨today.year, today.month, 1⟩

/-- Source `format_dd_mm_aaaa`: `f"{d.day:02d}-{d.month:02d}-{d.year:04d}"`. -/
def format_dd_mm_aaaa (d : PyDate) : String :=
  String.mk (padZero 2 d.day ++ '-' :: padZero 2 d.month ++ '-' :: padZero 4 d.year)

/-- Source `parse_dd_mm_aaaa`: strict `dd-mm-aaaa` with a `date` validity
check; `none` on any failure. -/
def parse_dd_mm_aaaa (s : String) : Option PyDate :=
  let t := pyStrip s.data
  if t.length = 10 ∧ t[2]? = some '-' ∧ t[5]? = some '-' then
    match pyInt (t.take 2), pyInt ((t.drop 3).take 2), pyInt (t.drop 6) with
    | some dd, some mm, some yy => mkPyDate yy mm dd
    | _, _, _ => none
  else none

/-- Source `_to_decimal_brl` (the `None` input short-circuit returns `0` before
this string path). -/
def _to_decimal_brl (s : String) : Dec := toDecimalCore s.data

/-- Source `_fmt_brl` in `services/parcelas.py`: quantize to two places with
the context default `ROUND_HALF_EVEN`, then render with thousands dots and a
decimal comma. -/
def _fmt_brl (d : Dec) : String := fmtCents (quantHE d)

/-- One installment dict `{n, venc, valor}`. -/
structure Parcela where
  n : String
  venc : String
  valor : String
deriving DecidableEq, Repr

/-- A panel row as `services/parcelas.py` sees it: the keys it reads or
writes, each possibly absent, plus the untouched remainder of the dict. -/
structure RowP where
  status : Option String
  acumulador : Option String
  iss_ret : Option String
  valor : Option String
  parcelas : Option (List Parcela)
  rest : List (String × String)
deriving DecidableEq, Repr

/-- Source `_is_cancelada`: `(row.get("STATUS") or "").strip().lower() == "cancelada"`. -/
def _is_cancelada (r : RowP) : Bool :=
  pyLowerStr (pyStripStr (pyOr r.status "")) == "cancelada"

/-- One loop body of `ajustar_acumuladores`: the updated row and whether it
counted as changed. -/
def ajustarStep (r : RowP) : RowP × Bool :=
  if _is_cancelada r then (r, false)
  else
    let acc := pyStripStr (pyOr r.acumulador "")
    if acc == "410" then ({ r with acumulador := some "411" }, true)
    else if acc == "424" then ({ r with acumulador := some "425" }, true)
    else if acc == "" then
      let is_ret := pyGetD r.iss_ret "0,00" ≠ "0,00"
      ({ r with acumulador := some (if is_ret then "425" else "411") }, true)
    else (r, false)

/-- Source `ajustar_acumuladores`: final state of the mutated list together
with the returned changed-row count. -/
def ajustar_acumuladores : List RowP → List RowP × Nat
  | [] => ([], 0)
  | r :: rs =>
    let p := ajustarStep r
    let q := ajustar_acumuladores rs
    (p.1 :: q.1, (if p.2 then 1 else 0) + q.2)

/-- One loop body of `aplicar_parcelas_uma` (only reached once the due date
parsed): cancelled rows are skipped, every other row gets the single synthetic
installment. -/
def aplicarStep (venc : String) (r : RowP) : RowP × Bool :=
  if _is_cancelada r then (r, false)
  else ({ r with parcelas := some [⟨"1", venc, pyOr r.valor "0,00"⟩] }, true)

/-- The application loop of `aplicar_parcelas_uma`. -/
def aplicarLoop (venc : String) : List RowP → List RowP × Nat
  | [] => ([], 0)
  | r :: rs =>
    let p := aplicarStep venc r
    let q := aplicarLoop venc rs
    (p.1 :: q.1, (if p.2 then 1 else 0) + q.2)

/-- Source `aplicar_parcelas_uma`: on an unparsable date the `ValueError` is
raised before the loop, leaving the list as it was. -/
def aplicar_parcelas_uma (linhas : List RowP) (venc : String) :
    List RowP × Except String Nat :=
  match parse_dd_mm_aaaa venc with
  | none => (linhas, .error "Data de vencimento inválida. Use o formato dd-mm-aaaa.")
  | some _ =>
    let q := aplicarLoop venc linhas
    (q.1, .ok q.2)

/-- Source `aplicar_parcelas_e_acumuladores`: `ajustar_acumuladores` runs
first and its in-place mutations persist even when `aplicar_parcelas_uma`
then raises on a bad date. -/
def aplicar_parcelas_e_acumuladores (linhas : List RowP) (venc : String) :
    List RowP × Except String (Nat × Nat) :=
  let a := ajustar_acumuladores linhas
  match aplicar_parcelas_uma a.1 venc with
  | (l2, .error e) => (l2, .error e)
  | (l2, .ok p) => (l2, .ok (a.2, p))

end Parcelas

namespace Loaders

/-- Case-insensitive lexicographic order on strings: the sort key
`str(x).lower()` used throughout `dataio/loaders.py`. -/
def strKeyLe (a b : String) : Prop := lexLe (pyLower a.data) (pyLower b.data) = true

instance : DecidableRel strKeyLe := fun a b => by unfold strKeyLe; infer_instance

/-- Python `s.lower().endswith(".xml")`. -/
def endsWithXmlLower (s : String) : Bool := (pyLower s.data).reverse.take 4 = ['l', 'm', 'x', '.']

/-- One entry of `zipfile.ZipFile.infolist()`: its name and directory flag. -/
structure ZipEntryM where
  name : String
  isDir : Bool
deriving DecidableEq, Repr

/-- A `.zip` file on disk: its full path as a string, its basename
(`Path.name`), and its entry list in archive order. -/
structure ZipFileM where
  path : String
  base : String
  entries : List ZipEntryM
deriving DecidableEq, Repr

/-- Order on archive entries: `key=lambda i: i.filename.lower()`. -/
def entryKeyLe (a b : ZipEntryM) : Prop := strKeyLe a.name b.name

instance : DecidableRel entryKeyLe := fun a b => by unfold entryKeyLe; infer_instance

/-- Order on discovered archives: `key=lambda x: str(x).lower()` on the full
path. -/
def zipKeyLe (a b : ZipFileM) : Prop := strKeyLe a.path b.path

instance : DecidableRel zipKeyLe := fun a b => by unfold zipKeyLe; infer_instance

/-- The logical name `f"{zp.name}:{name}"` of one archive entry. -/
def zipEntryName (base entry : String) : String := base ++ ":" ++ entry

/-- Source `_iter_zip_xml`, projected to the logical names it yields: sort the
entry list case-insensitively, skip directories, keep `.xml` entries. -/
def zipXmlNames (z : ZipFileM) : List String :=
  ((z.entries.insertionSort entryKeyLe).filter
      (fun e => !e.isDir && endsWithXmlLower e.name)).map (fun e => zipEntryName z.base e.name)

/-- A directory input as the two recursive globs see it: the `rglob("*.xml")`
file list and the `rglob("*.zip")` archive list, in arbitrary filesystem
order. -/
structure DirM where
  xmlPaths : List String
  zipFiles : List ZipFileM

/-- The directory branch of `iter_xml_bytes`, projected to logical names:
sorted loose `.xml` paths first, then each sorted archive's XML entries. -/
def iterDirNames (d : DirM) : List String :=
  d.xmlPaths.insertionSort strKeyLe
    ++ (d.zipFiles.insertionSort zipKeyLe).flatMap zipXmlNames

/-- Final path component of a POSIX-style path string (`Path.name`). -/
def pyBaseName (p : String) : List Char :=
  (p.data.reverse.takeWhile (fun c => c ≠ '/')).reverse

/-- `pathlib.Path.suffix`: the last dot-suffix of the basename, empty for
leading-dot-only or trailing-dot names. -/
def pySuffix (p : String) : String :=
  let base := pyBaseName p
  match base.reverse.findIdx? (fun c => c = '.') with
  | none => ""
  | some j =>
    let i := base.length - 1 - j
    if 0 < i ∧ i < base.length - 1 then String.mk (base.drop i) else ""

/-- A raised Python exception: its type name and message. -/
structure PyError where
  ty : String
  msg : String
deriving DecidableEq, Repr

/-- The input shapes `iter_xml_bytes` dispatches on. For an existing regular
file, `zipEntries` is the file content read as an archive (consulted only when
the suffix says `.zip`). -/
inductive PyInput where
  | missing (path : String)
  | file (path : String) (zipEntries : List ZipEntryM)
  | dir (path : String) (d : DirM)

/-- Source `iter_xml_bytes`, projected to the sequence of logical names it
yields, or the exception it raises. Both failure branches raise
`FileNotFoundError`, with different messages. -/
def iter_xml_bytes : PyInput → Except PyError (List String)
  | .missing p => .error ⟨"FileNotFoundError", "Caminho não encontrado: " ++ p⟩
  | .file p ents =>
    if pyLowerStr (pySuffix p) == ".zip" then
      .ok (zipXmlNames ⟨p, String.mk (pyBaseName p), ents⟩)
    else if pyLowerStr (pySuffix p) == ".xml" then .ok [p]
    else
      .error ⟨"FileNotFoundError",
        "Tipo de entrada não suportado (esperado pasta, .zip ou .xml): " ++ p⟩
  | .dir _ d => .ok (iterDirNames d)

/-- The Python exception type a modelled call raises, when it raises. -/
def raisedType : Except PyError (List String) → Option String
  | .error e => some e.ty
  | .ok _ => none

end Loaders

namespace DominioNfse

/-- Source `_to_decimal` in `services/dominio_nfse.py` (`None` yields zero,
then the shared BRL munge). -/
def _to_decimal (x : Option String) : Dec :=
  match x with
  | none => ⟨0, 0⟩
  | some s => toDecimalCore s.data

/-- Source `_fmt_brl` in `services/dominio_nfse.py`: two places,
`ROUND_HALF_UP`. -/
def _fmt_brl (d : Dec) : String := fmtCents (quantHU d)

/-- Source `_iss_retido_to_bool`: tri-state reading of the retention flag. -/
def _iss_retido_to_bool (v : Option String) : Option Bool :=
  match v with
  | none => none
  | some s =>
    let t := String.mk (pyLower (pyStrip s.data))
    if t == "s" || t == "sim" || t == "1" || t == "true" then some true
    else if t == "n" || t == "nao" || t == "não" || t == "0" || t == "false" then some false
    else none

/-- Source `_fmt_date_ddmmaa`, string path (a DB `date` value is modelled by
its ISO string; inputs with stray separators that would make the bare tuple
unpacking raise are passed through instead). -/
def _fmt_date_ddmmaa (v : Option String) : String :=
  match v with
  | none => ""
  | some s0 =>
    let s := pyStrip s0.data
    if 10 ≤ s.length ∧ s[4]? = some '-' ∧ s[7]? = some '-' ∧
        (s.take 10).count '-' = 2 then
      String.mk ((s.drop 8).take 2 ++ '-' :: (s.drop 5).take 2 ++ '-' :: s.take 4)
    else if 10 ≤ s.length ∧ (s[2]? = some '/' ∨ s[2]? = some '-') ∧
        (s[5]? = some '/' ∨ s[5]? = some '-') ∧
        ((s.take 10).map (fun c => if c = '/' then '-' else c)).count '-' = 2 then
      if (s.take 2).length = 2 ∧ ((s.drop 6).take 4).length = 4 then
        String.mk (s.take 2 ++ '-' :: (s.drop 3).take 2 ++ '-' :: (s.drop 6).take 4)
      else String.mk s
    else String.mk s

/-- One row of the `SELECT` in `buscar_nfse_por_numeros`, each column as the
string form of the fetched value (`None` for SQL NULL). -/
structure DbRow where
  DOC : Option String
  NFE : Option String
  EMISSAO : Option String
  VR_SERV : Option String
  ALIQUOTA : Option String
  VR_INSS : Option String
  VR_IR : Option String
  VR_PIS : Option String
  VR_COFINS : Option String
  VR_CSLL : Option String
  VR_ISS : Option String
  ISS_RETIDO : Option String
  DISCR : Option String
deriving Repr

/-- A row in the panel's column format as built by `buscar_nfse_por_numeros`. -/
structure RowN where
  TOMADOR : String
  NFE : String
  EMISSAO : String
  VALOR : String
  ALIQ : String
  INSS : String
  IR : String
  PIS : String
  COFINS : String
  CSLL : String
  ISS_RET : String
  ISS_NORMAL : String
  DISCRIMINACAO : String
deriving DecidableEq, Repr

/-- The per-row body of `buscar_nfse_por_numeros`: decimal conversion,
fraction-to-percent aliquot normalization, retention split, display
formatting. -/
def buildRow (row : DbRow) : RowN :=
  let vserv := _to_decimal row.VR_SERV
  let aliq0 := _to_decimal row.ALIQUOTA
  let aliq :=
    if aliq0.leB ⟨1, 0⟩ && !aliq0.eqB ⟨0, 0⟩ then (⟨aliq0.num * 100, aliq0.scale⟩ : Dec)
    else aliq0
  let viss := _to_decimal row.VR_ISS
  let issPair : Dec × Dec :=
    match _iss_retido_to_bool row.ISS_RETIDO with
    | some true => (viss, ⟨0, 0⟩)
    | some false => (⟨0, 0⟩, viss)
    | none => (⟨0, 0⟩, viss)
  { TOMADOR := pyStripStr (pyOr row.DOC "")
    NFE := pyStripStr (pyOr row.NFE "")
    EMISSAO := _fmt_date_ddmmaa row.EMISSAO
    VALOR := _fmt_brl vserv
    ALIQ := _fmt_brl aliq
    INSS := _fmt_brl (_to_decimal row.VR_INSS)
    IR := _fmt_brl (_to_decimal row.VR_IR)
    PIS := _fmt_brl (_to_decimal row.VR_PIS)
    COFINS := _fmt_brl (_to_decimal row.VR_COFINS)
    CSLL := _fmt_brl (_to_decimal row.VR_CSLL)
    ISS_RET := _fmt_brl issPair.1
    ISS_NORMAL := _fmt_brl issPair.2
    DISCRIMINACAO := pyStripStr (pyOr row.DISCR "") }

end DominioNfse

namespace DominioExport

/-- Source `_norm_str`: empty for `None`, stripped string otherwise. -/
def _norm_str (v : Option String) : String := pyStripStr (v.getD "")

/-- Source `_ddmmaaaa`: keep `dd-mm-aaaa`, convert a leading ISO date, pass
anything else through (same tuple-unpacking caveat as `_fmt_date_ddmmaa`). -/
def _ddmmaaaa (s : String) : String :=
  let t := pyStrip s.data
  if t.length = 10 ∧ t[2]? = some '-' ∧ t[5]? = some '-' then String.mk t
  else if 10 ≤ t.length ∧ t[4]? = some '-' ∧ t[7]? = some '-' ∧
      (t.take 10).count '-' = 2 then
    String.mk ((t.drop 8).take 2 ++ '-' :: (t.drop 5).take 2 ++ '-' :: t.take 4)
  else String.mk t

/-- A row as `export_final` consumes it: the fifteen panel columns (each key
possibly absent) plus the optional installment list. -/
structure RowE where
  TOMADOR : Option String
  NFE : Option String
  EMISSAO : Option String
  VALOR : Option String
  ALIQ : Option String
  INSS : Option String
  IR : Option String
  PIS : Option String
  COFINS : Option String
  CSLL : Option String
  ISS_RET : Option String
  ISS_NORMAL : Option String
  DISCRIMINACAO : Option String
  STATUS : Option String
  ACUMULADOR : Option String
  PARCELAS : Option (List Parcelas.Parcela)
deriving DecidableEq, Repr

/-- The per-row pre-processing of `export_final`: zero the nine numeric
columns of a cancelled row, then derive a default accumulator (`425` /
`411`) when the field is empty. -/
def normRow (r : RowE) : RowE :=
  let status := _norm_str (some (pyOr r.STATUS "Normal"))
  let r1 :=
    if pyLowerStr status == "cancelada" then
      { r with VALOR := some "0,00", ALIQ := some "0,00", INSS := some "0,00",
               IR := some "0,00", PIS := some "0,00", COFINS := some "0,00",
               CSLL := some "0,00", ISS_RET := some "0,00", ISS_NORMAL := some "0,00" }
    else r
  let acc := _norm_str r1.ACUMULADOR
  if acc == "" then
    { r1 with ACUMULADOR := some (if _norm_str r1.ISS_RET ≠ "0,00" then "425" else "411") }
  else r1

/-- Source `_build_3000`: the note header line of the export layout. -/
def _build_3000 (r : RowE) : List String :=
  ["3000", _norm_str r.NFE, _norm_str r.TOMADOR, _ddmmaaaa (_norm_str r.EMISSAO),
   _norm_str r.VALOR, _norm_str r.ALIQ, _norm_str r.DISCRIMINACAO,
   "STATUS=" ++ _norm_str (some (pyOr r.STATUS "Normal"))]

/-- Source `_build_3020`: the tax line of the export layout. -/
def _build_3020 (r : RowE) : List String :=
  ["3020", _norm_str r.NFE, _norm_str r.INSS, _norm_str r.IR, _norm_str r.PIS,
   _norm_str r.COFINS, _norm_str r.CSLL, _norm_str r.ISS_RET, _norm_str r.ISS_NORMAL]

/-- Source `_build_3300`: the accumulator line of the export layout. -/
def _build_3300 (r : RowE) : List String :=
  ["3300", _norm_str r.NFE, "ACC=" ++ _norm_str r.ACUMULADOR]

end DominioExport

namespace Extractor

/-- Modelled from the spec: the Field Extractor's retained-flag reading
(§4.2) — `{SIM, S, TRUE, 1}` mean retained, anything else means not
retained. The `NFSeParser` class the panel imports is missing from the
sources (`src/parsers/nfse_abrasf.py` holds a stale copy of panel code), so
this and `issSplit` are built from the spec's words. -/
def retainedFlag (flag : String) : Bool :=
  let t := pyLowerStr (pyStripStr flag)
  t == "sim" || t == "s" || t == "true" || t == "1"

/-- Modelled from the spec: the Field Extractor splits the ISS amount into
exactly one of `iss_ret` / `iss_normal` per the retained flag, the other side
being the literal zero string (§4.2), both rendered in the canonical display
format. Returns `(iss_ret, iss_normal)`. -/
def issSplit (flag : String) (iss : Dec) : String × String :=
  if retainedFlag flag then (Parcelas._fmt_brl iss, "0,00")
  else ("0,00", Parcelas._fmt_brl iss)

end Extractor

/-! ## Proofs

Helper lemmas first, then one theorem per specification claim (with its
counterexample and witness where applicable). -/

theorem digitVal_digitCh (n : Nat) : digitVal (digitCh n) = n % 10 := by
  have h : ∀ k, k < 10 → digitVal (digitCh k) = k % 10 := by decide
  have h10 : n % 10 < 10 := Nat.mod_lt _ (by norm_num)
  have : digitCh n = digitCh (n % 10) := by
    unfold digitCh; simp
  rw [this, h _ h10]; simp

theorem isDigitCh_digitCh (n : Nat) : isDigitCh (digitCh n) = true := by
  have h : ∀ k, k < 10 → isDigitCh (digitCh k) = true := by decide
  have h10 : n % 10 < 10 := Nat.mod_lt _ (by norm_num)
  have : digitCh n = digitCh (n % 10) := by
    unfold digitCh; simp
  rw [this, h _ h10]

theorem natDigitsAux_eq (n : Nat) : ∀ fuel acc, n ≤ fuel →
    natDigitsAux fuel n acc = ((Nat.digits 10 n).reverse.map digitCh) ++ acc := by
  induction n using Nat.strong_induction_on with
  | _ n ih =>
    intro fuel acc hfuel
    match fuel with
    | 0 =>
      interval_cases n
      simp [natDigitsAux]
    | f + 1 =>
      by_cases h0 : n = 0
      · subst h0; simp [natDigitsAux]
      · have hdiv : n / 10 < n := Nat.div_lt_self (Nat.pos_of_ne_zero h0) (by norm_num)
        have hdf : n / 10 ≤ f := Nat.lt_succ_iff.mp (Nat.lt_of_lt_of_le hdiv hfuel)
        have := ih (n / 10) hdiv f (digitCh (n % 10) :: acc) hdf
        rw [natDigitsAux, if_neg h0, this,
          Nat.digits_def' (by norm_num : (1:Nat) < 10) (Nat.pos_of_ne_zero h0)]
        simp

theorem natDigits_eq (n : Nat) (h : n ≠ 0) :
    natDigits n = (Nat.digits 10 n).reverse.map digitCh := by
  rw [natDigits, if_neg h, natDigitsAux_eq n n [] (Nat.le_refl n)]
  simp

theorem natDigits_all_digits (n : Nat) : ∀ c ∈ natDigits n, isDigitCh c = true := by
  by_cases h : n = 0
  · subst h; decide
  · rw [natDigits_eq n h]
    intro c hc
    rcases List.mem_map.mp hc with ⟨d, _, rfl⟩
    exact isDigitCh_digitCh d

theorem natDigits_ne_nil (n : Nat) : natDigits n ≠ [] := by
  by_cases h : n = 0
  · subst h; simp [natDigits]
  · rw [natDigits_eq n h]
    simp only [ne_eq, List.map_eq_nil_iff, List.reverse_eq_nil_iff]
    exact Nat.digits_ne_nil_iff_ne_zero.mpr h

theorem ofDigitsNat_from (l : List Char) : ∀ s : Nat,
    l.foldl (fun a c => 10 * a + digitVal c) s
      = s * 10 ^ l.length + ofDigitsNat l := by
  induction l with
  | nil => intro s; simp [ofDigitsNat]
  | cons c t ih =>
    intro s
    have h1 := ih (10 * s + digitVal c)
    have h2 := ih (10 * 0 + digitVal c)
    simp only [List.foldl_cons, ofDigitsNat] at h1 h2 ⊢
    rw [h1, h2, List.length_cons]
    ring

theorem ofDigitsNat_append (a b : List Char) :
    ofDigitsNat (a ++ b) = ofDigitsNat a * 10 ^ b.length + ofDigitsNat b := by
  unfold ofDigitsNat
  rw [List.foldl_append, ofDigitsNat_from]
  rfl

theorem ofDigitsNat_natDigits (n : Nat) : ofDigitsNat (natDigits n) = n := by
  by_cases h : n = 0
  · subst h; decide
  · rw [natDigits_eq n h]
    have hlt : ∀ d ∈ Nat.digits 10 n, d < 10 := fun d hd =>
      Nat.digits_lt_base (by norm_num) hd
    have key : ∀ ds : List Nat, (∀ d ∈ ds, d < 10) →
        ofDigitsNat (ds.reverse.map digitCh) = Nat.ofDigits 10 ds := by
      intro ds
      induction ds with
      | nil => intro _; simp [ofDigitsNat, Nat.ofDigits]
      | cons d t ih =>
        intro hall
        have hd : d < 10 := hall d (List.mem_cons_self d t)
        have ht : ∀ x ∈ t, x < 10 := fun x hx => hall x (List.mem_cons_of_mem d hx)
        simp only [List.reverse_cons, List.map_append, List.map_cons, List.map_nil]
        rw [ofDigitsNat_append, ih ht, Nat.ofDigits_cons]
        have : ofDigitsNat [digitCh d] = d := by
          simp only [ofDigitsNat, List.foldl_cons, List.foldl_nil]
          rw [digitVal_digitCh, Nat.mod_eq_of_lt hd]
          ring
        rw [this]
        simp
        ring
    rw [key _ hlt, Nat.ofDigits_digits]

/-! ### C3 — cancelled rows export all nine decimal fields as zero -/

/-- C3: for every row whose status field is `"Cancelada"`, all nine decimal
fields (valor, aliq, inss, ir, pis, cofins, csll, iss_ret, iss_normal) equal
the zero string `"0,00"` in the emitted output, regardless of the values
carried in the source document. -/
theorem cancelada_zeroes_all_decimal_fields (r : DominioExport.RowE)
    (h : r.STATUS = some "Cancelada") :
    ((DominioExport.normRow r).VALOR = some "0,00" ∧
      (DominioExport.normRow r).ALIQ = some "0,00" ∧
      (DominioExport.normRow r).INSS = some "0,00" ∧
      (DominioExport.normRow r).IR = some "0,00" ∧
      (DominioExport.normRow r).PIS = some "0,00" ∧
      (DominioExport.normRow r).COFINS = some "0,00" ∧
      (DominioExport.normRow r).CSLL = some "0,00" ∧
      (DominioExport.normRow r).ISS_RET = some "0,00" ∧
      (DominioExport.normRow r).ISS_NORMAL = some "0,00") ∧
    DominioExport._build_3020 (DominioExport.normRow r) =
      ["3020", DominioExport._norm_str r.NFE,
       "0,00", "0,00", "0,00", "0,00", "0,00", "0,00", "0,00"] ∧
    DominioExport._build_3000 (DominioExport.normRow r) =
      ["3000", DominioExport._norm_str r.NFE, DominioExport._norm_str r.TOMADOR,
       DominioExport._ddmmaaaa (DominioExport._norm_str r.EMISSAO),
       "0,00", "0,00", DominioExport._norm_str r.DISCRIMINACAO, "STATUS=Cancelada"] := by
  have hst : pyOr r.STATUS "Normal" = "Cancelada" := by rw [h]; rfl
  have hcond : (pyLowerStr (DominioExport._norm_str (some "Cancelada")) == "cancelada") = true := by
    decide
  unfold DominioExport.normRow DominioExport._build_3020 DominioExport._build_3000
  simp only [hst, hcond, if_true]
  by_cases hacc : (DominioExport._norm_str r.ACUMULADOR == "") = true
  · simp only [hacc, if_true]
    refine ⟨⟨?_, ?_, ?_, ?_, ?_, ?_, ?_, ?_, ?_⟩, ?_, ?_⟩ <;> try trivial
    all_goals rw [hst]; rfl
  · simp only [Bool.not_eq_true] at hacc
    simp only [hacc, Bool.false_eq_true, if_false]
    refine ⟨⟨?_, ?_, ?_, ?_, ?_, ?_, ?_, ?_, ?_⟩, ?_, ?_⟩ <;> try trivial
    all_goals rw [hst]; rfl

/-- Witness for C3 at a concrete cancelled row carrying nonzero amounts. -/
theorem cancelada_zeroes_all_decimal_fields_witness :
    (DominioExport.normRow
        { TOMADOR := some "123", NFE := some "77", EMISSAO := some "30-09-2025",
          VALOR := some "1.500,00", ALIQ := some "2,00", INSS := some "1,00",
          IR := some "2,00", PIS := some "3,00", COFINS := some "4,00",
          CSLL := some "5,00", ISS_RET := some "30,00", ISS_NORMAL := some "0,00",
          DISCRIMINACAO := some "Obra", STATUS := some "Cancelada",
          ACUMULADOR := some "424", PARCELAS := none }).VALOR = some "0,00" :=
  (cancelada_zeroes_all_decimal_fields _ rfl).1.1

/-! ### C6 — the export-time default accumulator is 425/411, not 424/410 -/

/-- C6 counterexample: a row with an empty accumulator and `ISS_RET = "0,00"`
receives the default `"411"` at export time, not the `"410"` the claim
states. -/
theorem default_accumulator_not_410_cex :
    (DominioExport.normRow
        { TOMADOR := none, NFE := none, EMISSAO := none, VALOR := none,
          ALIQ := none, INSS := none, IR := none, PIS := none, COFINS := none,
          CSLL := none, ISS_RET := some "0,00", ISS_NORMAL := some "10,00",
          DISCRIMINACAO := none, STATUS := none, ACUMULADOR := none,
          PARCELAS := none }).ACUMULADOR = some "411" ∧
    (DominioExport.normRow
        { TOMADOR := none, NFE := none, EMISSAO := none, VALOR := none,
          ALIQ := none, INSS := none, IR := none, PIS := none, COFINS := none,
          CSLL := none, ISS_RET := some "0,00", ISS_NORMAL := some "10,00",
          DISCRIMINACAO := none, STATUS := none, ACUMULADOR := none,
          PARCELAS := none }).ACUMULADOR ≠ some "410" := by
  constructor
  · rfl
  · decide

/-- C6 amended: for every non-cancelled row whose accumulator field
normalizes to the empty string, the export-time default accumulator is
`"425"` if the normalized retained-ISS string differs from `"0,00"` and
`"411"` otherwise. -/
theorem export_default_accumulator (r : DominioExport.RowE)
    (hacc : DominioExport._norm_str r.ACUMULADOR = "")
    (hnc : pyLowerStr (DominioExport._norm_str (some (pyOr r.STATUS "Normal"))) ≠ "cancelada") :
    (DominioExport.normRow r).ACUMULADOR =
      some (if DominioExport._norm_str r.ISS_RET ≠ "0,00" then "425" else "411") := by
  have hcond :
      (pyLowerStr (DominioExport._norm_str (some (pyOr r.STATUS "Normal"))) == "cancelada")
        = false := by
    exact beq_eq_false_iff_ne.mpr hnc
  unfold DominioExport.normRow
  simp only [hcond, Bool.false_eq_true, if_false, hacc]
  rfl

/-- Witness for C6 at a concrete row with retained ISS, yielding `"425"`. -/
theorem export_default_accumulator_witness :
    (DominioExport.normRow
        { TOMADOR := none, NFE := none, EMISSAO := none, VALOR := none,
          ALIQ := none, INSS := none, IR := none, PIS := none, COFINS := none,
          CSLL := none, ISS_RET := some "30,00", ISS_NORMAL := some "0,00",
          DISCRIMINACAO := none, STATUS := some "Normal", ACUMULADOR := none,
          PARCELAS := none }).ACUMULADOR =
      some (if DominioExport._norm_str (some "30,00") ≠ "0,00" then "425" else "411") :=
  export_default_accumulator _ rfl (by decide)

/-! ### C2 — at most one of the ISS fields is nonzero, but both can be "0,00" -/

/-- C2 counterexample: a lookup row with a zero ISS amount and the flag
`"n"` renders both `iss_ret` and `iss_normal` as `"0,00"`, so with a zero ISS
amount it is not the case that exactly one of the two fields is the literal
`"0,00"`. -/
theorem iss_split_both_zero_cex :
    (DominioNfse.buildRow
        { DOC := some "123", NFE := some "9", EMISSAO := none,
          VR_SERV := some "1500", ALIQUOTA := some "0.02", VR_INSS := none,
          VR_IR := none, VR_PIS := none, VR_COFINS := none, VR_CSLL := none,
          VR_ISS := some "0", ISS_RETIDO := some "n", DISCR := none }).ISS_RET = "0,00" ∧
    (DominioNfse.buildRow
        { DOC := some "123", NFE := some "9", EMISSAO := none,
          VR_SERV := some "1500", ALIQUOTA := some "0.02", VR_INSS := none,
          VR_IR := none, VR_PIS := none, VR_COFINS := none, VR_CSLL := none,
          VR_ISS := some "0", ISS_RETIDO := some "n", DISCR := none }).ISS_NORMAL = "0,00" ∧
    ¬(((DominioNfse.buildRow
        { DOC := some "123", NFE := some "9", EMISSAO := none,
          VR_SERV := some "1500", ALIQUOTA := some "0.02", VR_INSS := none,
          VR_IR := none, VR_PIS := none, VR_COFINS := none, VR_CSLL := none,
          VR_ISS := some "0", ISS_RETIDO := some "n", DISCR := none }).ISS_RET = "0,00" ∧
        (DominioNfse.buildRow
        { DOC := some "123", NFE := some "9", EMISSAO := none,
          VR_SERV := some "1500", ALIQUOTA := some "0.02", VR_INSS := none,
          VR_IR := none, VR_PIS := none, VR_COFINS := none, VR_CSLL := none,
          VR_ISS := some "0", ISS_RETIDO := some "n", DISCR := none }).ISS_NORMAL ≠ "0,00") ∨
      ((DominioNfse.buildRow
        { DOC := some "123", NFE := some "9", EMISSAO := none,
          VR_SERV := some "1500", ALIQUOTA := some "0.02", VR_INSS := none,
          VR_IR := none, VR_PIS := none, VR_COFINS := none, VR_CSLL := none,
          VR_ISS := some "0", ISS_RETIDO := some "n", DISCR := none }).ISS_RET ≠ "0,00" ∧
        (DominioNfse.buildRow
        { DOC := some "123", NFE := some "9", EMISSAO := none,
          VR_SERV := some "1500", ALIQUOTA := some "0.02", VR_INSS := none,
          VR_IR := none, VR_PIS := none, VR_COFINS := none, VR_CSLL := none,
          VR_ISS := some "0", ISS_RETIDO := some "n", DISCR := none }).ISS_NORMAL = "0,00")) := by
  decide

/-- C2 amended: in every row built by the Domínio NFSe lookup, and in every
split the (spec-modelled) Field Extractor produces, at least one of the
`iss_ret` / `iss_normal` fields is the literal `"0,00"` — the two withholding
states never both carry a nonzero amount. Both fields are `"0,00"` exactly
when the ISS amount renders as zero. -/
theorem iss_fields_mutually_exclusive (row : DominioNfse.DbRow) :
    ((DominioNfse.buildRow row).ISS_RET = "0,00" ∨
      (DominioNfse.buildRow row).ISS_NORMAL = "0,00") ∧
    ∀ (flag : String) (iss : Dec),
      (Extractor.issSplit flag iss).1 = "0,00" ∨ (Extractor.issSplit flag iss).2 = "0,00" := by
  constructor
  · unfold DominioNfse.buildRow
    cases hb : DominioNfse._iss_retido_to_bool row.ISS_RETIDO with
    | none =>
      left
      show DominioNfse._fmt_brl ⟨0, 0⟩ = "0,00"
      decide
    | some b =>
      cases b with
      | true =>
        right
        show DominioNfse._fmt_brl ⟨0, 0⟩ = "0,00"
        decide
      | false =>
        left
        show DominioNfse._fmt_brl ⟨0, 0⟩ = "0,00"
        decide
  · intro flag iss
    unfold Extractor.issSplit
    by_cases hf : Extractor.retainedFlag flag = true
    · right
      simp only [hf, if_true]
    · left
      simp only [Bool.not_eq_true] at hf
      simp only [hf, Bool.false_eq_true, if_false]

/-! ### C9 — unsupported inputs raise the same exception type as missing ones -/

/-- C9 counterexample: an existing path that is neither directory, `.zip` nor
`.xml` and a nonexistent path both raise `FileNotFoundError` — the two
failures are not distinct exception types, only their messages differ. -/
theorem unsupported_and_missing_same_exception_cex :
    Loaders.raisedType (Loaders.iter_xml_bytes (.file "/q/a.txt" [])) =
      some "FileNotFoundError" ∧
    Loaders.raisedType (Loaders.iter_xml_bytes (.missing "/q/a.txt")) =
      some "FileNotFoundError" ∧
    Loaders.raisedType (Loaders.iter_xml_bytes (.file "/q/a.txt" [])) =
      Loaders.raisedType (Loaders.iter_xml_bytes (.missing "/q/a.txt")) :=
  ⟨rfl, rfl, rfl⟩

/-- C9 amended: an existing regular file whose suffix is neither `.zip` nor
`.xml` makes enumeration fail, but with the same `FileNotFoundError` type
used for a missing path — the two failures are distinguished only by their
messages. -/
theorem unsupported_input_filenotfound (p : String) (ents : List Loaders.ZipEntryM)
    (h1 : pyLowerStr (Loaders.pySuffix p) ≠ ".zip")
    (h2 : pyLowerStr (Loaders.pySuffix p) ≠ ".xml") :
    Loaders.iter_xml_bytes (.file p ents) =
      .error ⟨"FileNotFoundError",
        "Tipo de entrada não suportado (esperado pasta, .zip ou .xml): " ++ p⟩ ∧
    Loaders.iter_xml_bytes (.missing p) =
      .error ⟨"FileNotFoundError", "Caminho não encontrado: " ++ p⟩ ∧
    (Loaders.PyError.mk "FileNotFoundError"
        ("Tipo de entrada não suportado (esperado pasta, .zip ou .xml): " ++ p)).ty =
      (Loaders.PyError.mk "FileNotFoundError" ("Caminho não encontrado: " ++ p)).ty := by
  refine ⟨?_, rfl, rfl⟩
  simp only [Loaders.iter_xml_bytes]
  rw [beq_eq_false_iff_ne.mpr h1, beq_eq_false_iff_ne.mpr h2]
  simp only [Bool.false_eq_true, if_false]

/-- Witness for C9 at the path `/q/a.txt`. -/
theorem unsupported_input_filenotfound_witness :
    Loaders.iter_xml_bytes (.file "/q/a.txt" []) =
      .error ⟨"FileNotFoundError",
        "Tipo de entrada não suportado (esperado pasta, .zip ou .xml): " ++ "/q/a.txt"⟩ :=
  (unsupported_input_filenotfound "/q/a.txt" [] (by decide) (by decide)).1

/-! ### C5 — the suggested due date is the previous month's last day -/

/-- C5 counterexample: `calcular_vencimento_padrao` at the date 2025-10-16
returns 2025-09-30, which is not the last calendar day of the month
containing that date (2025-10-31). -/
theorem vencimento_padrao_not_containing_month_cex :
    Parcelas.calcular_vencimento_padrao ⟨2025, 10, 16⟩ = ⟨2025, 9, 30⟩ ∧
    Parcelas.calcular_vencimento_padrao ⟨2025, 10, 16⟩ ≠
      ⟨2025, 10, Parcelas.daysInMonth 2025 10⟩ := by
  exact ⟨rfl, by decide⟩

/-- C5 amended: the suggested due date is computed from the caller's system
date, not from any row, and equals the last calendar day of the month
preceding that date's month; it ignores the day component (so in particular
it is independent of cancellation, reading nothing from any row). -/
theorem vencimento_padrao_prev_month_last_day (y m d : Nat)
    (hm : 1 ≤ m) (hm' : m ≤ 12) :
    Parcelas.calcular_vencimento_padrao ⟨y, m, d⟩ =
      (if m = 1 then ⟨y - 1, 12, 31⟩ else ⟨y, m - 1, Parcelas.daysInMonth y (m - 1)⟩) ∧
    Parcelas.calcular_vencimento_padrao ⟨y, m, d⟩ =
      Parcelas.calcular_vencimento_padrao ⟨y, m, 1⟩ := by
  refine ⟨?_, rfl⟩
  interval_cases m <;> rfl

/-- Witness for C5 at the system date 2025-10-16. -/
theorem vencimento_padrao_prev_month_last_day_witness :
    (Parcelas.calcular_vencimento_padrao ⟨2025, 10, 16⟩ =
      (if 10 = 1 then ⟨2025 - 1, 12, 31⟩
        else ⟨2025, 10 - 1, Parcelas.daysInMonth 2025 (10 - 1)⟩) ∧
     Parcelas.calcular_vencimento_padrao ⟨2025, 10, 16⟩ =
      Parcelas.calcular_vencimento_padrao ⟨2025, 10, 1⟩) :=
  vencimento_padrao_prev_month_last_day 2025 10 16 (by decide) (by decide)

/-! ### C1 — a bad due date raises, but accumulator mutations persist -/

/-- Helper: one `ajustar_acumuladores` step touches nothing but the
accumulator field. -/
theorem ajustarStep_frame (r : Parcelas.RowP) :
    (Parcelas.ajustarStep r).1.status = r.status ∧
    (Parcelas.ajustarStep r).1.iss_ret = r.iss_ret ∧
    (Parcelas.ajustarStep r).1.valor = r.valor ∧
    (Parcelas.ajustarStep r).1.parcelas = r.parcelas ∧
    (Parcelas.ajustarStep r).1.rest = r.rest := by
  unfold Parcelas.ajustarStep
  dsimp only
  split_ifs <;> exact ⟨rfl, rfl, rfl, rfl, rfl⟩

/-- Helper: `ajustar_acumuladores` only rewrites accumulator fields across the
whole list. -/
theorem ajustar_acumuladores_frame (linhas : List Parcelas.RowP) :
    (Parcelas.ajustar_acumuladores linhas).1.map
        (fun r => (r.status, r.iss_ret, r.valor, r.parcelas, r.rest)) =
      linhas.map (fun r => (r.status, r.iss_ret, r.valor, r.parcelas, r.rest)) := by
  induction linhas with
  | nil => rfl
  | cons r rs ih =>
    obtain ⟨h1, h2, h3, h4, h5⟩ := ajustarStep_frame r
    simp only [Parcelas.ajustar_acumuladores, List.map_cons, h1, h2, h3, h4, h5, ih]

/-- C1 counterexample: applying the unparsable due date `"bad"` to a single
row holding accumulator `"410"` raises the error, yet the row's accumulator
has already been rewritten to `"411"` — the selection is not left untouched. -/
theorem invalid_due_date_mutates_accumulators_cex :
    (Parcelas.aplicar_parcelas_e_acumuladores
        [{ status := none, acumulador := some "410", iss_ret := none,
           valor := none, parcelas := none, rest := [] }] "bad").2 =
      .error "Data de vencimento inválida. Use o formato dd-mm-aaaa." ∧
    (Parcelas.aplicar_parcelas_e_acumuladores
        [{ status := none, acumulador := some "410", iss_ret := none,
           valor := none, parcelas := none, rest := [] }] "bad").1 =
      [{ status := none, acumulador := some "411", iss_ret := none,
         valor := none, parcelas := none, rest := [] }] ∧
    (Parcelas.aplicar_parcelas_e_acumuladores
        [{ status := none, acumulador := some "410", iss_ret := none,
           valor := none, parcelas := none, rest := [] }] "bad").1 ≠
      [{ status := none, acumulador := some "410", iss_ret := none,
         valor := none, parcelas := none, rest := [] }] := by
  refine ⟨rfl, rfl, ?_⟩
  decide

/-- C1 amended: an unparsable target due date makes
`aplicar_parcelas_e_acumuladores` raise the `ValueError` (the spec's
`InvalidDateError`) and leaves every field of every selected row except the
accumulator untouched — in particular no installment list is written — but
the accumulator adjustments of the first phase persist (the invocation is not
all-or-nothing). -/
theorem invalid_due_date_error_frame (linhas : List Parcelas.RowP) (venc : String)
    (h : Parcelas.parse_dd_mm_aaaa venc = none) :
    (Parcelas.aplicar_parcelas_e_acumuladores linhas venc).2 =
      .error "Data de vencimento inválida. Use o formato dd-mm-aaaa." ∧
    (Parcelas.aplicar_parcelas_e_acumuladores linhas venc).1 =
      (Parcelas.ajustar_acumuladores linhas).1 ∧
    (Parcelas.aplicar_parcelas_e_acumuladores linhas venc).1.map
        (fun r => (r.status, r.iss_ret, r.valor, r.parcelas, r.rest)) =
      linhas.map (fun r => (r.status, r.iss_ret, r.valor, r.parcelas, r.rest)) := by
  have key : Parcelas.aplicar_parcelas_e_acumuladores linhas venc =
      ((Parcelas.ajustar_acumuladores linhas).1,
        .error "Data de vencimento inválida. Use o formato dd-mm-aaaa.") := by
    unfold Parcelas.aplicar_parcelas_e_acumuladores Parcelas.aplicar_parcelas_uma
    rw [h]
  rw [key]
  exact ⟨rfl, rfl, ajustar_acumuladores_frame linhas⟩

/-- Witness for C1 with the due date `"xx"` on a two-row selection. -/
theorem invalid_due_date_error_frame_witness :
    (Parcelas.aplicar_parcelas_e_acumuladores
        [{ status := none, acumulador := some "424", iss_ret := some "30,00",
           valor := some "1.500,00", parcelas := none, rest := [] },
         { status := some "Cancelada", acumulador := none, iss_ret := none,
           valor := none, parcelas := none, rest := [] }] "xx").2 =
      .error "Data de vencimento inválida. Use o formato dd-mm-aaaa." :=
  (invalid_due_date_error_frame _ "xx" rfl).1

/-! ### C4 — applying a due date overwrites any pre-existing installments -/

/-- Helper: one application step either skips a cancelled row or replaces the
whole installment list with the single synthetic installment. -/
theorem aplicarStep_eq (venc : String) (r : Parcelas.RowP) :
    (Parcelas.aplicarStep venc r).1 =
      (if Parcelas._is_cancelada r then r
        else { r with parcelas := some [⟨"1", venc, pyOr r.valor "0,00"⟩] }) ∧
    (Parcelas.aplicarStep venc r).2 = !Parcelas._is_cancelada r := by
  unfold Parcelas.aplicarStep
  by_cases hc : Parcelas._is_cancelada r = true
  · simp [hc]
  · simp only [Bool.not_eq_true] at hc
    simp [hc]

/-- Helper: the application loop maps the step over the list and counts the
non-cancelled rows. -/
theorem aplicarLoop_eq (venc : String) (linhas : List Parcelas.RowP) :
    (Parcelas.aplicarLoop venc linhas).1 =
      linhas.map (fun r => (Parcelas.aplicarStep venc r).1) ∧
    (Parcelas.aplicarLoop venc linhas).2 =
      linhas.countP (fun r => !Parcelas._is_cancelada r) := by
  induction linhas with
  | nil => exact ⟨rfl, rfl⟩
  | cons r rs ih =>
    refine ⟨?_, ?_⟩
    · simp only [Parcelas.aplicarLoop, List.map_cons, ih.1]
    · simp only [Parcelas.aplicarLoop, ih.2, List.countP_cons, (aplicarStep_eq venc r).2]
      by_cases hc : Parcelas._is_cancelada r = true <;> (simp [hc]; try omega)

/-- C4 counterexample: a pre-existing two-installment list the Deriver did
not build is replaced by the single synthetic installment when a valid due
date is applied — it is not preserved. -/
theorem apply_due_date_overwrites_parcelas_cex :
    (Parcelas.aplicar_parcelas_uma
        [{ status := none, acumulador := none, iss_ret := none,
           valor := some "100,00",
           parcelas := some [⟨"1", "01-01-2025", "50,00"⟩, ⟨"2", "01-02-2025", "50,00"⟩],
           rest := [] }] "30-09-2025").1 =
      [{ status := none, acumulador := none, iss_ret := none,
         valor := some "100,00",
         parcelas := some [⟨"1", "30-09-2025", "100,00"⟩],
         rest := [] }] ∧
    (Parcelas.aplicar_parcelas_uma
        [{ status := none, acumulador := none, iss_ret := none,
           valor := some "100,00",
           parcelas := some [⟨"1", "01-01-2025", "50,00"⟩, ⟨"2", "01-02-2025", "50,00"⟩],
           rest := [] }] "30-09-2025").1 ≠
      [{ status := none, acumulador := none, iss_ret := none,
         valor := some "100,00",
         parcelas := some [⟨"1", "01-01-2025", "50,00"⟩, ⟨"2", "01-02-2025", "50,00"⟩],
         rest := [] }] := by
  decide

/-- C4 amended: when the due date parses, every non-cancelled selected row's
installment list becomes exactly the single synthetic installment
`{n := "1", venc := applied date, valor := row's valor (default "0,00")}` —
replacing, not preserving, any pre-existing list — cancelled rows are left
unchanged, and the call reports the number of non-cancelled rows. -/
theorem apply_due_date_single_installment (linhas : List Parcelas.RowP)
    (venc : String) (d : Parcelas.PyDate)
    (h : Parcelas.parse_dd_mm_aaaa venc = some d) :
    (Parcelas.aplicar_parcelas_uma linhas venc).2 =
      .ok (linhas.countP (fun r => !Parcelas._is_cancelada r)) ∧
    (Parcelas.aplicar_parcelas_uma linhas venc).1 =
      linhas.map (fun r =>
        if Parcelas._is_cancelada r then r
        else { r with parcelas := some [⟨"1", venc, pyOr r.valor "0,00"⟩] }) := by
  have key : Parcelas.aplicar_parcelas_uma linhas venc =
      ((Parcelas.aplicarLoop venc linhas).1, .ok (Parcelas.aplicarLoop venc linhas).2) := by
    unfold Parcelas.aplicar_parcelas_uma
    rw [h]
  rw [key, (aplicarLoop_eq venc linhas).1, (aplicarLoop_eq venc linhas).2]
  refine ⟨rfl, ?_⟩
  exact List.map_congr_left (fun r _ => (aplicarStep_eq venc r).1)

/-- Witness for C4 on one normal row with a pre-existing two-installment
list and one cancelled row, due date `"30-09-2025"`. -/
theorem apply_due_date_single_installment_witness :
    (Parcelas.aplicar_parcelas_uma
        [{ status := none, acumulador := none, iss_ret := none,
           valor := some "100,00",
           parcelas := some [⟨"1", "01-01-2025", "50,00"⟩, ⟨"2", "01-02-2025", "50,00"⟩],
           rest := [] },
         { status := some "Cancelada", acumulador := none, iss_ret := none,
           valor := none, parcelas := none, rest := [] }] "30-09-2025").2 =
      .ok ([{ status := none, acumulador := none, iss_ret := none,
              valor := some "100,00",
              parcelas := some [(⟨"1", "01-01-2025", "50,00"⟩ : Parcelas.Parcela),
                ⟨"2", "01-02-2025", "50,00"⟩],
              rest := [] },
            { status := some "Cancelada", acumulador := none, iss_ret := none,
              valor := none, parcelas := none, rest := [] }].countP
        (fun r => !Parcelas._is_cancelada r)) :=
  (apply_due_date_single_installment _ "30-09-2025" ⟨2025, 9, 30⟩ (by decide)).1

/-! ### C7 / C8 — enumeration order and logical-name provenance -/

/-- Helper: a `lexLe` comparison of nonempty lists reduces to a head
comparison or to the tails. -/
theorem lexLe_cons_elim {x y : Char} {xs ys : List Char}
    (h : lexLe (x :: xs) (y :: ys) = true) :
    x.toNat < y.toNat ∨ (x.toNat = y.toNat ∧ lexLe xs ys = true) := by
  by_cases h1 : x.toNat < y.toNat
  · exact Or.inl h1
  · by_cases h2 : y.toNat < x.toNat
    · simp [lexLe, h1, h2] at h
    · exact Or.inr ⟨by omega, by simpa [lexLe, h1, h2] using h⟩

/-- Helper: `lexLe` holds when the heads strictly compare. -/
theorem lexLe_cons_of_lt {x y : Char} (xs ys : List Char) (h : x.toNat < y.toNat) :
    lexLe (x :: xs) (y :: ys) = true := by
  simp [lexLe, h]

/-- Helper: `lexLe` holds when the heads agree and the tails compare. -/
theorem lexLe_cons_of_eq {x y : Char} {xs ys : List Char} (h : x.toNat = y.toNat)
    (h' : lexLe xs ys = true) : lexLe (x :: xs) (y :: ys) = true := by
  simp [lexLe, h, h']

/-- Helper: `lexLe` is total. -/
theorem lexLe_total (a : List Char) : ∀ b, lexLe a b = true ∨ lexLe b a = true := by
  induction a with
  | nil => intro b; left; rfl
  | cons x xs ih =>
    intro b
    cases b with
    | nil => right; rfl
    | cons y ys =>
      by_cases h1 : x.toNat < y.toNat
      · exact Or.inl (lexLe_cons_of_lt _ _ h1)
      · by_cases h2 : y.toNat < x.toNat
        · exact Or.inr (lexLe_cons_of_lt _ _ h2)
        · have he : x.toNat = y.toNat := by omega
          rcases ih ys with h | h
          · exact Or.inl (lexLe_cons_of_eq he h)
          · exact Or.inr (lexLe_cons_of_eq he.symm h)

/-- Helper: `lexLe` is transitive. -/
theorem lexLe_trans {a : List Char} : ∀ {b c : List Char},
    lexLe a b = true → lexLe b c = true → lexLe a c = true := by
  induction a with
  | nil => intro b c _ _; rfl
  | cons x xs ih =>
    intro b c h1 h2
    cases b with
    | nil => simp [lexLe] at h1
    | cons y ys =>
      cases c with
      | nil => simp [lexLe] at h2
      | cons z zs =>
        rcases lexLe_cons_elim h1 with hl1 | ⟨he1, hr1⟩ <;>
          rcases lexLe_cons_elim h2 with hl2 | ⟨he2, hr2⟩
        · exact lexLe_cons_of_lt _ _ (by omega)
        · exact lexLe_cons_of_lt _ _ (by omega)
        · exact lexLe_cons_of_lt _ _ (by omega)
        · exact lexLe_cons_of_eq (by omega) (ih hr1 hr2)

/-- C7: enumerating a directory yields all loose `.xml` paths in ascending
case-insensitive order, followed by the XML entries of each `.zip` archive:
archives in ascending case-insensitive order of full path, the entries of
each archive in ascending case-insensitive name order. -/
theorem iter_dir_loose_sorted_before_zip_entries (d : Loaders.DirM) :
    Loaders.iterDirNames d =
      d.xmlPaths.insertionSort Loaders.strKeyLe
        ++ (d.zipFiles.insertionSort Loaders.zipKeyLe).flatMap Loaders.zipXmlNames ∧
    (d.xmlPaths.insertionSort Loaders.strKeyLe).Perm d.xmlPaths ∧
    (d.xmlPaths.insertionSort Loaders.strKeyLe).Sorted Loaders.strKeyLe ∧
    (d.zipFiles.insertionSort Loaders.zipKeyLe).Perm d.zipFiles ∧
    (d.zipFiles.insertionSort Loaders.zipKeyLe).Sorted Loaders.zipKeyLe ∧
    ∀ z : Loaders.ZipFileM, ∃ es : List Loaders.ZipEntryM,
      Loaders.zipXmlNames z = es.map (fun e => Loaders.zipEntryName z.base e.name) ∧
      es.Sorted Loaders.entryKeyLe ∧
      es.Perm (z.entries.filter (fun e => !e.isDir && Loaders.endsWithXmlLower e.name)) := by
  haveI hts : IsTotal String Loaders.strKeyLe := ⟨fun a b => lexLe_total _ _⟩
  haveI hrs : IsTrans String Loaders.strKeyLe := ⟨fun _ _ _ h1 h2 => lexLe_trans h1 h2⟩
  haveI htz : IsTotal Loaders.ZipFileM Loaders.zipKeyLe := ⟨fun a b => lexLe_total _ _⟩
  haveI hrz : IsTrans Loaders.ZipFileM Loaders.zipKeyLe :=
    ⟨fun _ _ _ h1 h2 => lexLe_trans h1 h2⟩
  haveI hte : IsTotal Loaders.ZipEntryM Loaders.entryKeyLe := ⟨fun a b => lexLe_total _ _⟩
  haveI hre : IsTrans Loaders.ZipEntryM Loaders.entryKeyLe :=
    ⟨fun _ _ _ h1 h2 => lexLe_trans h1 h2⟩
  refine ⟨rfl, List.perm_insertionSort _ _, List.sorted_insertionSort _ _,
    List.perm_insertionSort _ _, List.sorted_insertionSort _ _, ?_⟩
  intro z
  refine ⟨(z.entries.insertionSort Loaders.entryKeyLe).filter
      (fun e => !e.isDir && Loaders.endsWithXmlLower e.name), rfl, ?_, ?_⟩
  · exact (List.sorted_insertionSort _ _).filter _
  · exact (List.perm_insertionSort _ _).filter _

/-- C8 counterexample: two archives in different subdirectories but with the
same basename `notas.zip`, each holding an entry `x.xml`, yield the same
logical name twice — the name does not uniquely identify provenance. -/
theorem logical_name_collision_cex :
    Loaders.iterDirNames
        ⟨[], [⟨"a/notas.zip", "notas.zip", [⟨"x.xml", false⟩]⟩,
              ⟨"b/notas.zip", "notas.zip", [⟨"x.xml", false⟩]⟩]⟩ =
      ["notas.zip:x.xml", "notas.zip:x.xml"] ∧
    ¬(Loaders.iterDirNames
        ⟨[], [⟨"a/notas.zip", "notas.zip", [⟨"x.xml", false⟩]⟩,
              ⟨"b/notas.zip", "notas.zip", [⟨"x.xml", false⟩]⟩]⟩).Nodup := by
  refine ⟨rfl, ?_⟩
  decide

/-- Helper: the character data of a composed logical name. -/
theorem zipEntryName_data (b e : String) :
    (Loaders.zipEntryName b e).data = b.data ++ ':' :: e.data := by
  cases b with
  | mk l1 =>
    cases e with
    | mk l2 => simp [Loaders.zipEntryName, String.data_append]

/-- Helper: a composed logical name always contains a colon. -/
theorem zipEntryName_has_colon (b e : String) : ':' ∈ (Loaders.zipEntryName b e).data := by
  rw [zipEntryName_data]
  exact List.mem_append_right _ (List.mem_cons_self _ _)

/-- Helper: splitting at a colon is unambiguous when neither prefix contains
one. -/
theorem colon_split {a : List Char} : ∀ {b e f : List Char}, ':' ∉ a → ':' ∉ b →
    a ++ ':' :: e = b ++ ':' :: f → a = b ∧ e = f := by
  induction a with
  | nil =>
    intro b e f _ hb h
    cases b with
    | nil => simpa using h
    | cons y ys =>
      simp only [List.nil_append, List.cons_append, List.cons.injEq] at h
      have hmem : (':' : Char) ∈ y :: ys := by rw [h.1]; exact List.mem_cons_self y ys
      exact absurd hmem hb
  | cons x xs ih =>
    intro b e f ha hb h
    cases b with
    | nil =>
      simp only [List.cons_append, List.nil_append, List.cons.injEq] at h
      have hmem : (':' : Char) ∈ x :: xs := by rw [← h.1]; exact List.mem_cons_self x xs
      exact absurd hmem ha
    | cons y ys =>
      simp only [List.cons_append, List.cons.injEq] at h
      have hx : ':' ∉ xs := fun hm => ha (List.mem_cons_of_mem x hm)
      have hy : ':' ∉ ys := fun hm => hb (List.mem_cons_of_mem y hm)
      obtain ⟨h1, h2⟩ := h
      obtain ⟨hb1, hb2⟩ := ih hx hy h2
      exact ⟨by rw [h1, hb1], hb2⟩

/-- Helper: composed logical names are equal only when base and entry agree,
provided the bases are colon-free. -/
theorem zipEntryName_inj {b1 b2 e1 e2 : String}
    (hb1 : ':' ∉ b1.data) (hb2 : ':' ∉ b2.data)
    (h : Loaders.zipEntryName b1 e1 = Loaders.zipEntryName b2 e2) :
    b1 = b2 ∧ e1 = e2 := by
  have hd : b1.data ++ ':' :: e1.data = b2.data ++ ':' :: e2.data := by
    rw [← zipEntryName_data, ← zipEntryName_data, h]
  obtain ⟨h1, h2⟩ := colon_split hb1 hb2 hd
  exact ⟨congrArg String.mk h1, congrArg String.mk h2⟩

/-- Helper: the XML entry names one archive yields, with their multiset of
underlying entry names. -/
theorem zipXmlNames_mem {z : Loaders.ZipFileM} {n : String} (h : n ∈ Loaders.zipXmlNames z) :
    ∃ e : Loaders.ZipEntryM, n = Loaders.zipEntryName z.base e.name := by
  unfold Loaders.zipXmlNames at h
  rcases List.mem_map.mp h with ⟨e, _, rfl⟩
  exact ⟨e, rfl⟩

/-- C8 amended: the composed `archive.zip:entry.xml` / plain-path logical
names of one enumeration are pairwise distinct provided no two discovered
archives share a basename, basenames are colon-free, each archive's XML entry
names are distinct, and the loose `.xml` paths are distinct and colon-free
(two same-named archives in different subdirectories, or duplicate entry
names, do collide, as the counterexample shows). -/
theorem logical_names_nodup (d : Loaders.DirM)
    (h1 : d.xmlPaths.Nodup)
    (h2 : (d.zipFiles.map (fun z => z.base)).Nodup)
    (h3 : ∀ z ∈ d.zipFiles, ':' ∉ z.base.data)
    (h4 : ∀ z ∈ d.zipFiles,
      ((z.entries.filter (fun e => !e.isDir && Loaders.endsWithXmlLower e.name)).map
          (fun e => e.name)).Nodup)
    (h5 : ∀ p ∈ d.xmlPaths, ':' ∉ p.data) :
    (Loaders.iterDirNames d).Nodup := by
  haveI hte : IsTotal Loaders.ZipEntryM Loaders.entryKeyLe := ⟨fun a b => lexLe_total _ _⟩
  haveI hre : IsTrans Loaders.ZipEntryM Loaders.entryKeyLe :=
    ⟨fun _ _ _ ha hb => lexLe_trans ha hb⟩
  unfold Loaders.iterDirNames
  rw [List.nodup_append]
  have hperm := List.perm_insertionSort Loaders.zipKeyLe d.zipFiles
  have hmemz : ∀ z ∈ d.zipFiles.insertionSort Loaders.zipKeyLe, z ∈ d.zipFiles :=
    fun z hz => hperm.mem_iff.mp hz
  refine ⟨?_, ?_, ?_⟩
  · exact (List.perm_insertionSort _ _).nodup_iff.mpr h1
  · rw [List.nodup_flatMap]
    constructor
    · intro z hz
      have hzm := hmemz z hz
      unfold Loaders.zipXmlNames
      have hinj : Function.Injective (fun e : String => Loaders.zipEntryName z.base e) := by
        intro a b hab
        have := zipEntryName_inj (h3 z hzm) (h3 z hzm) hab
        exact this.2
      have hn : (((z.entries.insertionSort Loaders.entryKeyLe).filter
            (fun e => !e.isDir && Loaders.endsWithXmlLower e.name)).map
              (fun e => e.name)).Nodup := by
        have hp : (((z.entries.insertionSort Loaders.entryKeyLe).filter
              (fun e => !e.isDir && Loaders.endsWithXmlLower e.name)).map
                (fun e => e.name)).Perm
            ((z.entries.filter (fun e => !e.isDir && Loaders.endsWithXmlLower e.name)).map
                (fun e => e.name)) :=
          ((List.perm_insertionSort _ _).filter _).map _
        exact hp.nodup_iff.mpr (h4 z hzm)
      have : ((z.entries.insertionSort Loaders.entryKeyLe).filter
            (fun e => !e.isDir && Loaders.endsWithXmlLower e.name)).map
              (fun e => Loaders.zipEntryName z.base e.name) =
          (((z.entries.insertionSort Loaders.entryKeyLe).filter
            (fun e => !e.isDir && Loaders.endsWithXmlLower e.name)).map
              (fun e => e.name)).map (fun s => Loaders.zipEntryName z.base s) := by
        rw [List.map_map]
        rfl
      rw [this]
      exact (List.nodup_map_iff hinj).mpr hn
    · have hpb : (d.zipFiles.insertionSort Loaders.zipKeyLe).Pairwise
          (fun a b => a.base ≠ b.base) := by
        have hn2 : ((d.zipFiles.insertionSort Loaders.zipKeyLe).map
            (fun z => z.base)).Nodup :=
          (hperm.map _).nodup_iff.mpr h2
        rw [List.Nodup, List.pairwise_map] at hn2
        exact hn2
      refine hpb.imp_of_mem ?_
      intro a b ha hb hne
      intro n hna hnb
      rcases zipXmlNames_mem hna with ⟨e1, rfl⟩
      rcases zipXmlNames_mem hnb with ⟨e2, he⟩
      exact hne (zipEntryName_inj (h3 a (hmemz a ha)) (h3 b (hmemz b hb)) he).1
  · intro n hn hn2
    have hnx : n ∈ d.xmlPaths := (List.perm_insertionSort _ _).mem_iff.mp hn
    rcases List.mem_flatMap.mp hn2 with ⟨z, _, hnz⟩
    rcases zipXmlNames_mem hnz with ⟨e, rfl⟩
    exact h5 _ hnx (zipEntryName_has_colon _ _)

/-- Witness for C8: a directory with one loose file and two archives with
distinct basenames. -/
theorem logical_names_nodup_witness :
    (Loaders.iterDirNames
        ⟨["b.xml"], [⟨"a/notas.zip", "notas.zip", [⟨"x.xml", false⟩, ⟨"y.xml", false⟩]⟩,
              ⟨"a/outras.zip", "outras.zip", [⟨"x.xml", false⟩]⟩]⟩).Nodup :=
  logical_names_nodup _ (by decide) (by decide) (by decide) (by decide) (by decide)

/-! ### C10 — BRL display round-trip -/

/-- Helper: quantizing an exact two-decimal value is the identity on cents. -/
theorem quantHE_cents (n : Int) : quantHE ⟨n, 2⟩ = n := by
  unfold quantHE roundHalfEvenInt
  have h100 : (10 : Int) ^ (2 : Nat) = 100 := by norm_num
  rw [h100]
  have hq : Int.ediv (n * 100) 100 = n := Int.mul_ediv_cancel n (by norm_num)
  have hr : Int.emod (n * 100) 100 = 0 := Int.mul_emod_left n 100
  rw [hq, hr]
  norm_num

/-- Helper: a decimal digit character is not whitespace, nor any of the
separator or sign characters. -/
theorem digit_not_special {c : Char} (h : isDigitCh c = true) :
    pyIsSpace c = false ∧ c ≠ ',' ∧ c ≠ '.' ∧ c ≠ '-' ∧ c ≠ '+' := by
  simp only [isDigitCh, Bool.and_eq_true, decide_eq_true_eq] at h
  have hne : ∀ d : Char, d.toNat < 48 ∨ 57 < d.toNat → c ≠ d := by
    intro d hd he
    subst he
    omega
  refine ⟨?_, hne _ (by decide), hne _ (by decide), hne _ (by decide), hne _ (by decide)⟩
  simp only [pyIsSpace, Bool.or_eq_false_iff, decide_eq_false_iff_not]
  exact ⟨⟨⟨⟨⟨hne _ (by decide), hne _ (by decide)⟩, hne _ (by decide)⟩,
    hne _ (by decide)⟩, hne _ (by decide)⟩, hne _ (by decide)⟩

/-- Helper: grouping only inserts commas. -/
theorem mem_groupRevAux (l : List Char) (c : Char) (h : c ∈ groupRevAux l) :
    c ∈ l ∨ c = ',' := by
  match l with
  | [] => exact Or.inl h
  | [a] => exact Or.inl h
  | [a, b] => exact Or.inl h
  | [a, b, d] => exact Or.inl h
  | a :: b :: d :: e :: rest =>
    simp only [groupRevAux, List.mem_cons] at h
    rcases h with h | h | h | h | h
    · exact Or.inl (by simp [h])
    · exact Or.inl (by simp [h])
    · exact Or.inl (by simp [h])
    · exact Or.inr h
    · rcases mem_groupRevAux (e :: rest) c h with h2 | h2
      · exact Or.inl (by simp [List.mem_cons] at h2 ⊢; tauto)
      · exact Or.inr h2

/-- Helper: dropping the inserted commas undoes the grouping. -/
theorem filter_groupRevAux (l : List Char) (hl : ∀ c ∈ l, isDigitCh c = true) :
    (groupRevAux l).filter (fun c => c ≠ ',') = l := by
  match l with
  | [] => rfl
  | [a] =>
    have := (digit_not_special (hl a (by simp))).2.1
    simp [groupRevAux, List.filter_cons, this]
  | [a, b] =>
    have ha := (digit_not_special (hl a (by simp))).2.1
    have hb := (digit_not_special (hl b (by simp))).2.1
    simp [groupRevAux, List.filter_cons, ha, hb]
  | [a, b, d] =>
    have ha := (digit_not_special (hl a (by simp))).2.1
    have hb := (digit_not_special (hl b (by simp))).2.1
    have hd := (digit_not_special (hl d (by simp))).2.1
    simp [groupRevAux, List.filter_cons, ha, hb, hd]
  | a :: b :: d :: e :: rest =>
    have ha := (digit_not_special (hl a (by simp))).2.1
    have hb := (digit_not_special (hl b (by simp))).2.1
    have hd := (digit_not_special (hl d (by simp))).2.1
    have hrec := filter_groupRevAux (e :: rest)
      (fun c hc => hl c (by simp [List.mem_cons] at hc ⊢; tauto))
    simp only [groupRevAux, List.filter_cons]
    simp [ha, hb, hd]
    simpa using hrec

/-- Helper: every character of `groupDots ds` is a digit of `ds` or a dot. -/
theorem mem_groupDots {ds : List Char} (hds : ∀ c ∈ ds, isDigitCh c = true)
    {c : Char} (h : c ∈ groupDots ds) : isDigitCh c = true ∨ c = '.' := by
  unfold groupDots at h
  rcases List.mem_map.mp h with ⟨c0, hc0, rfl⟩
  have hc0' : c0 ∈ groupRevAux ds.reverse := List.mem_reverse.mp hc0
  rcases mem_groupRevAux _ _ hc0' with hm | hm
  · have hdig := hds c0 (List.mem_reverse.mp hm)
    left
    rw [if_neg (digit_not_special hdig).2.1]
    exact hdig
  · right
    rw [hm]
    rfl

/-- Helper: stripping dots then mapping commas to dots recovers the digits
from a grouped string. -/
theorem unmunge_groupDots (ds : List Char) (hds : ∀ c ∈ ds, isDigitCh c = true) :
    ((groupDots ds).filter (fun c => c ≠ '.')).map (fun c => if c = ',' then '.' else c) = ds := by
  unfold groupDots
  rw [List.filter_map]
  have hcong : (groupRevAux ds.reverse).reverse.filter
        ((fun c => decide (c ≠ '.')) ∘ fun c => if c = ',' then '.' else c) =
      (groupRevAux ds.reverse).reverse.filter (fun c => c ≠ ',') := by
    apply List.filter_congr
    intro c hc
    rcases mem_groupRevAux _ _ (List.mem_reverse.mp hc) with hm | hm
    · have hdig := hds c (List.mem_reverse.mp hm)
      obtain ⟨-, hcomma, hdot, -, -⟩ := digit_not_special hdig
      simp [Function.comp, hcomma, hdot]
    · subst hm
      simp [Function.comp]
  rw [hcong, List.filter_reverse, filter_groupRevAux ds.reverse
    (fun c hc => hds c (List.mem_reverse.mp hc)), List.reverse_reverse, List.map_map]
  have hid : ∀ c ∈ ds,
      ((fun c => if c = ',' then '.' else c) ∘ fun c => if c = ',' then '.' else c) c = id c := by
    intro c hc
    obtain ⟨-, hcomma, -, -, -⟩ := digit_not_special (hds c hc)
    simp [Function.comp, hcomma]
  rw [List.map_congr_left hid, List.map_id]

/-- Helper: `str.strip()` is the identity on space-free strings. -/
theorem pyStrip_eq_self {l : List Char} (h : ∀ c ∈ l, pyIsSpace c = false) :
    pyStrip l = l := by
  have k : ∀ m : List Char, (∀ c ∈ m, pyIsSpace c = false) → m.dropWhile pyIsSpace = m := by
    intro m hm
    cases m with
    | nil => rfl
    | cons a t =>
      rw [List.dropWhile_cons, if_neg (by simp [hm a (List.mem_cons_self a t)])]
  unfold pyStrip
  rw [k _ h, k _ (fun c hc => h c (List.mem_reverse.mp hc)), List.reverse_reverse]

/-- Helper: splitting at the dot of `digits ++ "." ++ rest`. -/
theorem splitDotCh_append {a : List Char} (ha : '.' ∉ a) (b : List Char) :
    splitDotCh (a ++ '.' :: b) = (a, some b) := by
  induction a with
  | nil => simp [splitDotCh]
  | cons x xs ih =>
    have hx : x ≠ '.' := fun he => ha (he ▸ List.mem_cons_self x xs)
    have hxs : '.' ∉ xs := fun hm => ha (List.mem_cons_of_mem x hm)
    simp only [List.cons_append, splitDotCh, if_neg hx]
    rw [show xs.append ('.' :: b) = xs ++ '.' :: b from rfl, ih hxs]

/-- Helper: the two padded fraction digits read back as the cent remainder. -/
theorem ofDigitsNat_pad2 (fr : Nat) (h : fr < 100) : ofDigitsNat (pad2 fr) = fr := by
  simp only [pad2, ofDigitsNat, List.foldl_cons, List.foldl_nil, digitVal_digitCh]
  omega

/-- Helper: parsing `digits.dd` produces the scaled-by-two value. -/
theorem parseUnsignedDec_digits_frac (ds : List Char) (fr : Nat)
    (hds : ∀ c ∈ ds, isDigitCh c = true) (hne : ds ≠ []) (hfr : fr < 100) :
    parseUnsignedDec (ds ++ '.' :: pad2 fr) =
      some ⟨((ofDigitsNat ds * 100 + fr : Nat) : Int), 2⟩ := by
  have hdot : '.' ∉ ds := fun hm => (digit_not_special (hds _ hm)).2.2.1 rfl
  have hall : (ds ++ pad2 fr).all isDigitCh = true := by
    rw [List.all_eq_true]
    intro c hc
    rcases List.mem_append.mp hc with hc | hc
    · exact hds c hc
    · have h2 : c = digitCh (fr / 10) ∨ c = digitCh fr := by simpa [pad2] using hc
      rcases h2 with rfl | rfl <;> exact isDigitCh_digitCh _
  have hne2 : ds ++ pad2 fr ≠ [] := by
    simp [hne]
  unfold parseUnsignedDec
  rw [splitDotCh_append hdot]
  dsimp only
  rw [if_pos ⟨hall, hne2⟩]
  have hv : ofDigitsNat (ds ++ pad2 fr) = ofDigitsNat ds * 100 + fr := by
    rw [ofDigitsNat_append, ofDigitsNat_pad2 fr hfr]
    rfl
  rw [hv]
  rfl

/-- Helper: a literal that starts with neither sign character parses
unsigned. -/
theorem parseDecLit_not_sign {c : Char} {t : List Char} (h1 : c ≠ '-') (h2 : c ≠ '+') :
    parseDecLit (c :: t) = parseUnsignedDec (c :: t) := by
  unfold parseDecLit
  split
  · next heq => exact absurd (List.cons.inj heq).1 h1
  · next heq => exact absurd (List.cons.inj heq).1 h2
  · rfl

/-- Helper: the character-level shape of a formatted cent amount. -/
theorem fmtCents_data (n : Int) :
    (fmtCents n).data =
      (if Int.tdiv n 100 < 0 then ['-'] else []) ++
        (groupDots (natDigits (Int.tdiv n 100).natAbs) ++ ',' :: pad2 (n.natAbs % 100)) := by
  unfold fmtCents
  by_cases hip : Int.tdiv n 100 < 0 <;> simp [hip]

/-- Helper: a formatted amount contains no whitespace. -/
theorem fmt_list_no_space (n : Int) : ∀ c ∈ (fmtCents n).data, pyIsSpace c = false := by
  intro c hc
  rw [fmtCents_data] at hc
  rcases List.mem_append.mp hc with hc | hc
  · by_cases hip : Int.tdiv n 100 < 0
    · rw [if_pos hip] at hc
      have hcm : c = '-' := by simpa using hc
      subst hcm
      decide
    · rw [if_neg hip] at hc
      cases hc
  · rcases List.mem_append.mp hc with hc | hc
    · rcases mem_groupDots (natDigits_all_digits _) hc with hdig | hdotc
      · exact (digit_not_special hdig).1
      · subst hdotc
        decide
    · rcases List.mem_cons.mp hc with hcm | hc
      · subst hcm
        decide
      · have h2 : c = digitCh (n.natAbs % 100 / 10) ∨ c = digitCh (n.natAbs % 100) := by
          simpa [pad2] using hc
        rcases h2 with rfl | rfl <;> exact (digit_not_special (isDigitCh_digitCh _)).1

/-- Helper: a formatted amount contains its decimal comma. -/
theorem comma_mem_fmt (n : Int) : ',' ∈ (fmtCents n).data := by
  rw [fmtCents_data]
  exact List.mem_append_right _ (List.mem_append_right _ (List.mem_cons_self _ _))

/-- Helper: a formatted amount is nonempty. -/
theorem fmt_data_ne_nil (n : Int) : (fmtCents n).data ≠ [] := by
  intro h
  have hm := comma_mem_fmt n
  rw [h] at hm
  cases hm

/-- Helper: on a comma-carrying string, both branches of the BRL munge
amount to dropping all dots and then turning the comma into a dot. -/
theorem brlMunge_of_comma {l : List Char} (h : ',' ∈ l) :
    brlMunge l = (l.filter (fun c => c ≠ '.')).map (fun c => if c = ',' then '.' else c) := by
  unfold brlMunge
  by_cases hd : '.' ∈ l
  · rw [if_pos ⟨h, hd⟩]
  · rw [if_neg (fun hcon => hd hcon.2)]
    have hself : l.filter (fun c => c ≠ '.') = l := by
      apply List.filter_eq_self.mpr
      intro a ha
      simp only [ne_eq, decide_eq_true_eq]
      intro he
      exact hd (he ▸ ha)
    rw [hself]

/-- Helper: the comma-and-fraction tail survives the munge as a dot and the
same two digits. -/
theorem munge_tail (fr : Nat) :
    (((',' : Char) :: pad2 fr).filter (fun c => c ≠ '.')).map
        (fun c => if c = ',' then '.' else c) = '.' :: pad2 fr := by
  have hd1 := digit_not_special (isDigitCh_digitCh (fr / 10))
  have hd2 := digit_not_special (isDigitCh_digitCh fr)
  simp [pad2, List.filter_cons, hd1.2.2.1, hd2.2.2.1, hd1.2.1, hd2.2.1]

/-- Helper: a leading minus sign passes through the munge unchanged. -/
theorem munge_minus_cons (Y : List Char) :
    ((('-' : Char) :: Y).filter (fun c => c ≠ '.')).map (fun c => if c = ',' then '.' else c) =
      '-' :: (Y.filter (fun c => c ≠ '.')).map (fun c => if c = ',' then '.' else c) := by
  rw [List.filter_cons]
  simp

/-- Helper: round trip of the whole formatted character list through strip,
munge and the `Decimal` literal parse. -/
theorem toDecimalCore_fmtCents (n : Int) (h : 0 ≤ n ∨ n ≤ -100) :
    toDecimalCore (fmtCents n).data = ⟨n, 2⟩ := by
  have hstrip : pyStrip (fmtCents n).data = (fmtCents n).data :=
    pyStrip_eq_self (fmt_list_no_space n)
  unfold toDecimalCore
  simp only [hstrip, fmt_data_ne_nil n, if_false, brlMunge_of_comma (comma_mem_fmt n)]
  rcases h with h0 | h0
  · obtain ⟨N, rfl⟩ := Int.eq_ofNat_of_zero_le h0
    have hip : Int.tdiv (N : Int) 100 = ((N / 100 : Nat) : Int) := rfl
    have hsign : ¬ Int.tdiv (N : Int) 100 < 0 := by
      rw [hip]
      exact Int.not_lt.mpr (Int.natCast_nonneg _)
    have hds : ∀ c ∈ natDigits (N / 100), isDigitCh c = true := natDigits_all_digits _
    rw [fmtCents_data, if_neg hsign, hip, Int.natAbs_ofNat, List.nil_append,
      List.filter_append, List.map_append, unmunge_groupDots _ hds]
    rw [show ((N : Int)).natAbs = N from Int.natAbs_ofNat N, munge_tail]
    obtain ⟨c0, t0, he⟩ := List.exists_cons_of_ne_nil (natDigits_ne_nil (N / 100))
    have hc0 : isDigitCh c0 = true := hds c0 (by rw [he]; exact List.mem_cons_self _ _)
    obtain ⟨-, -, -, hminus, hplus⟩ := digit_not_special hc0
    rw [he, List.cons_append, parseDecLit_not_sign hminus hplus, ← List.cons_append, ← he,
      parseUnsignedDec_digits_frac _ _ hds (natDigits_ne_nil _) (Nat.mod_lt _ (by norm_num)),
      ofDigitsNat_natDigits]
    have harith : N / 100 * 100 + N % 100 = N := by omega
    simp only [harith]
  · have hM : n = -(n.natAbs : Int) := by omega
    have hM100 : 100 ≤ n.natAbs := by omega
    have htdiv : Int.tdiv n 100 = -((n.natAbs / 100 : Nat) : Int) := by
      conv_lhs => rw [hM]
      rw [Int.neg_tdiv]
      rfl
    have hsign : Int.tdiv n 100 < 0 := by
      rw [htdiv]
      have h2 : 0 < n.natAbs / 100 := by omega
      omega
    have hnabs : (Int.tdiv n 100).natAbs = n.natAbs / 100 := by
      rw [htdiv, Int.natAbs_neg, Int.natAbs_ofNat]
    have hds : ∀ c ∈ natDigits (n.natAbs / 100), isDigitCh c = true := natDigits_all_digits _
    rw [fmtCents_data, if_pos hsign, hnabs, List.cons_append, List.nil_append,
      munge_minus_cons, List.filter_append, List.map_append,
      unmunge_groupDots _ hds, munge_tail]
    have hparse : parseDecLit ('-' :: (natDigits (n.natAbs / 100) ++ '.' :: pad2 (n.natAbs % 100))) =
        (parseUnsignedDec (natDigits (n.natAbs / 100) ++ '.' :: pad2 (n.natAbs % 100))).map
          (fun d => ⟨-d.num, d.scale⟩) := rfl
    rw [hparse,
      parseUnsignedDec_digits_frac _ _ hds (natDigits_ne_nil _) (Nat.mod_lt _ (by norm_num)),
      ofDigitsNat_natDigits]
    have harith : n.natAbs / 100 * 100 + n.natAbs % 100 = n.natAbs := by omega
    have hfin : -((n.natAbs : Nat) : Int) = n := by omega
    show Dec.mk (-((n.natAbs / 100 * 100 + n.natAbs % 100 : Nat) : Int)) 2 = ⟨n, 2⟩
    rw [harith, hfin]

/-- C10 counterexample: the value 1.234 is producible by the Normalizer (from
`"1,234"`), its canonical display form is `"1,23"`, and re-parsing that
display form yields 1.23, a different decimal value — the round trip loses
the third fraction digit. -/
theorem brl_roundtrip_precision_loss_cex :
    Parcelas._to_decimal_brl "1,234" = ⟨1234, 3⟩ ∧
    Parcelas._fmt_brl ⟨1234, 3⟩ = "1,23" ∧
    Parcelas._to_decimal_brl (Parcelas._fmt_brl (Parcelas._to_decimal_brl "1,234")) = ⟨123, 2⟩ ∧
    ¬ Dec.equiv (Parcelas._to_decimal_brl (Parcelas._fmt_brl (Parcelas._to_decimal_brl "1,234")))
        (Parcelas._to_decimal_brl "1,234") := by
  decide

/-- C10 amended: for every decimal value with exactly two fraction digits
that is non-negative or at most -1 (cent amount `n` with `0 ≤ n` or
`n ≤ -100`), parsing the canonical display form returns exactly that value,
scale included. Values with more fraction digits are first rounded to two
places (half-even), and negative values above -1 lose their sign in display,
so the round trip is exact only on this domain. -/
theorem brl_roundtrip_two_decimals (n : Int) (h : 0 ≤ n ∨ n ≤ -100) :
    Parcelas._to_decimal_brl (Parcelas._fmt_brl ⟨n, 2⟩) = ⟨n, 2⟩ := by
  unfold Parcelas._to_decimal_brl Parcelas._fmt_brl
  rw [quantHE_cents]
  exact toDecimalCore_fmtCents n h

/-- Witness for C10 at the value 1234.50 (cents 123450). -/
theorem brl_roundtrip_two_decimals_witness :
    (0 ≤ (123450 : Int) ∨ (123450 : Int) ≤ -100) ∧
    Parcelas._to_decimal_brl (Parcelas._fmt_brl ⟨123450, 2⟩) = ⟨123450, 2⟩ :=
  ⟨Or.inl (by norm_num), brl_roundtrip_two_decimals 123450 (Or.inl (by norm_num))⟩

end NFSePainel
